import Mathlib

/-!
Shallow embedding of the compositional NCP local residual
(`dumux/boxmodels/ncp/ncplocalresidual.hh`) and the 1p2c lens Newton
controller (`appl/lecture/msm/1p2cvs2p/lens_1p2cnewtoncontroller.hh`).

Scalars are modelled by `ℚ`; `EqVector`/`RateVector` by `ℕ → ℚ` with
pointwise operations; the external collaborators (the generic box
assembly, the mass/energy residual strategies, the generic Newton
controller policy) are abstract fields of the model/controller records.
-/

/-- Types `EqVector` / `RateVector` / `PrimaryVariables` of the NCP model:
per-equation scalar entries, pointwise arithmetic. -/
def EqVector : Type := ℕ → ℚ

instance : Zero EqVector := ⟨fun _ => 0⟩

instance : Add EqVector := ⟨fun a b i => a i + b i⟩

instance : SMul ℚ EqVector := ⟨fun c a i => c * a i⟩

instance : AddCommMonoid EqVector where
  add_assoc a b c := funext fun i => add_assoc (a i) (b i) (c i)
  zero_add a := funext fun i => zero_add (a i)
  add_zero a := funext fun i => add_zero (a i)
  add_comm a b := funext fun i => add_comm (a i) (b i)
  nsmul n a := fun i => n * a i
  nsmul_zero a := funext fun i => by
    show ((0 : ℕ) : ℚ) * a i = 0
    simp
  nsmul_succ n a := funext fun i => by
    show (n + 1 : ℕ) * a i = n * a i + a i
    push_cast
    ring

/-- A per-control-volume fluid state: phase saturations and per-phase,
per-component mole fractions (the part of the external FluidState
interface the NCP residual consumes). -/
structure FluidState where
  saturation : ℕ → ℚ
  moleFraction : ℕ → ℕ → ℚ

/-- Per-sub-control-volume volume variables: a fluid state and an
extrusion factor. -/
structure VolumeVariables where
  fluidState : FluidState
  extrusionFactor : ℚ

/-- The slice of the external `ElementContext` interface consumed by
`NcpLocalResidual`: sub-control-volume count and geometry, volume
variables at (scvIdx, timeIdx), the evaluation-point volume variables,
and the problem's source term. -/
structure ElementContext where
  numScv : ℕ
  volVars : ℕ → ℕ → VolumeVariables
  evalPointVolVars : ℕ → ℕ → VolumeVariables
  scvVolume : ℕ → ℚ
  problemSource : ℕ → ℕ → EqVector

/-- The NCP model configuration together with the external collaborator
strategies (`MassResid`, `EnergyResid`, and the generic base assembly
`BoxLocalResidual::eval`).  The strategy functions take the in/out
vector argument first, mirroring the C++ reference parameters. -/
structure NcpModel where
  numPhases : ℕ
  numComponents : ℕ
  phase0NcpIdx : ℕ
  massComputeStorage : EqVector → VolumeVariables → EqVector
  energyComputeStorage : EqVector → VolumeVariables → EqVector
  massAddPhaseStorage : EqVector → VolumeVariables → ℕ → EqVector
  energyAddPhaseStorage : EqVector → VolumeVariables → ℕ → EqVector
  massComputeSource : EqVector → ElementContext → ℕ → ℕ → EqVector
  energyComputeSource : EqVector → ElementContext → ℕ → ℕ → EqVector
  massComputeFlux : EqVector → ElementContext → ℕ → ℕ → EqVector
  baseEval : ElementContext → (ℕ → EqVector) × (ℕ → EqVector)

namespace NcpLocalResidual

/-- Function `phasePresentIneq_`: the inequality residual when the phase is
present — the phase saturation. -/
def phasePresentIneq_ (fluidState : FluidState) (phaseIdx : ℕ) : ℚ :=
  fluidState.saturation phaseIdx

/-- Function `phaseNotPresentIneq_`: difference of the sum of the mole fractions
in the phase from 100%, accumulated exactly like the source loop
`a = 1; for i: a -= moleFraction(phaseIdx, i)`. -/
def phaseNotPresentIneq_ (numComponents : ℕ) (fluidState : FluidState)
    (phaseIdx : ℕ) : ℚ :=
  (List.range numComponents).foldl
    (fun a i => a - fluidState.moleFraction phaseIdx i) 1

/-- Function `phaseNcp_`: the NCP switching function.  The branch decision is
made at the evaluation-point fluid state, the returned value is taken
at the actual fluid state. -/
def phaseNcp_ (m : NcpModel) (elemCtx : ElementContext)
    (scvIdx timeIdx phaseIdx : ℕ) : ℚ :=
  let fsEval := (elemCtx.evalPointVolVars scvIdx timeIdx).fluidState
  let fs := (elemCtx.volVars scvIdx timeIdx).fluidState
  let aEval := phaseNotPresentIneq_ m.numComponents fsEval phaseIdx
  let bEval := phasePresentIneq_ fsEval phaseIdx
  if aEval > bEval then
    phasePresentIneq_ fs phaseIdx
  else
    phaseNotPresentIneq_ m.numComponents fs phaseIdx

/-- Function `computeStorage`: zero the storage, then apply the mass and the
energy storage strategies. -/
def computeStorage (m : NcpModel) (storage : EqVector)
    (elemCtx : ElementContext) (scvIdx timeIdx : ℕ) : EqVector :=
  let volVars := elemCtx.volVars scvIdx timeIdx
  let storage := (0 : EqVector)
  let storage := m.massComputeStorage storage volVars
  let storage := m.energyComputeStorage storage volVars
  storage

/-- The per-sub-control-volume contribution accumulated by
`addPhaseStorage`: mass + energy phase storage scaled by extrusion
factor and sub-control-volume volume. -/
def phaseStorageTerm (m : NcpModel) (elemCtx : ElementContext)
    (phaseIdx scvIdx : ℕ) : EqVector :=
  let vv := elemCtx.volVars scvIdx 0
  let tmp := (0 : EqVector)
  let tmp := m.massAddPhaseStorage tmp vv phaseIdx
  let tmp := m.energyAddPhaseStorage tmp vv phaseIdx
  (vv.extrusionFactor * elemCtx.scvVolume scvIdx) • tmp

/-- Function `addPhaseStorage`: loop over the element's sub-control volumes and
accumulate each scaled phase-storage contribution into `storage`. -/
def addPhaseStorage (m : NcpModel) (storage : EqVector)
    (elemCtx : ElementContext) (phaseIdx : ℕ) : EqVector :=
  (List.range elemCtx.numScv).foldl
    (fun storage scvIdx => storage + phaseStorageTerm m elemCtx phaseIdx scvIdx)
    storage

/-- Function `computeSource`: the problem-supplied source term plus the mass
residual's source contribution; the energy source line is commented out
in the source and therefore absent here. -/
def computeSource (m : NcpModel) (elemCtx : ElementContext)
    (scvIdx timeIdx : ℕ) : EqVector :=
  let source := elemCtx.problemSource scvIdx timeIdx
  let tmp := m.massComputeSource (0 : EqVector) elemCtx scvIdx timeIdx
  source + tmp

/-- Function `computeFlux`: zero the flux, then delegate to the mass residual's
flux computation. -/
def computeFlux (m : NcpModel) (flux : EqVector)
    (elemCtx : ElementContext) (scvfIdx timeIdx : ℕ) : EqVector :=
  let flux := (0 : EqVector)
  m.massComputeFlux flux elemCtx scvfIdx timeIdx

/-- Point update of a local residual block at one (scv, equation) cell. -/
def updateCell (r : ℕ → EqVector) (scvIdx eqIdx : ℕ) (v : ℚ) : ℕ → EqVector :=
  fun i j => if i = scvIdx ∧ j = eqIdx then v else r i j

/-- The inner loop of `eval`: write the NCP rows of one sub-control
volume for phases `0, …, n-1`. -/
def writePhases (m : NcpModel) (elemCtx : ElementContext) (scvIdx : ℕ) :
    ℕ → (ℕ → EqVector) → (ℕ → EqVector)
  | 0, r => r
  | n + 1, r =>
    updateCell (writePhases m elemCtx scvIdx n r) scvIdx
      (m.phase0NcpIdx + n) (phaseNcp_ m elemCtx scvIdx 0 n)

/-- The outer loop of `eval`: write the NCP rows of sub-control volumes
`0, …, n-1`. -/
def writeScvs (m : NcpModel) (elemCtx : ElementContext) :
    ℕ → (ℕ → EqVector) → (ℕ → EqVector)
  | 0, r => r
  | n + 1, r => writePhases m elemCtx n m.numPhases (writeScvs m elemCtx n r)

/-- Function `eval`: run the generic base assembly, then overwrite the NCP rows
of the residual with the phase-NCP values; the storage term is left as
the base assembly produced it. -/
def eval (m : NcpModel) (elemCtx : ElementContext) :
    (ℕ → EqVector) × (ℕ → EqVector) :=
  let base := m.baseEval elemCtx
  (writeScvs m elemCtx elemCtx.numScv base.1, base.2)

end NcpLocalResidual

/-- The per-degree-of-freedom unknowns of the 1p2c model: the
pressure-like `konti` component and the `transport` component. -/
structure PrimaryVars where
  konti : ℚ
  transport : ℚ

instance : Inhabited PrimaryVars := ⟨⟨0, 0⟩⟩

/-- The lens 1p2c Newton controller state: the base-class relative
tolerance and iteration-count settings, the derived-class relative
defect `relDefect_` and maximum time-step bound `maxTimeStepSize_`, and
the external generic time-step suggestion policy of the base
`NewtonController` (a pure function of the previous step size, as far
as this controller consumes it). -/
structure LensOnePTwoCNewtonController where
  tolerance_ : ℚ
  targetSteps_ : ℕ
  maxSteps_ : ℕ
  relDefect_ : ℚ
  maxTimeStepSize_ : ℚ
  parentSuggestTimeStepSize : ℚ → ℚ

namespace LensController

/-- The constructor: relative tolerance 1e-7, target steps 9, max
steps 18, `relDefect_` sentinel 1e100; the maximum time-step size is
the injected configuration value (the source reads it from the
interface-properties file). -/
def mkController (maxTimeStepSize : ℚ) (parentSuggest : ℚ → ℚ) :
    LensOnePTwoCNewtonController where
  tolerance_ := 1 / 10 ^ 7
  targetSteps_ := 9
  maxSteps_ := 18
  relDefect_ := 10 ^ 100
  maxTimeStepSize_ := maxTimeStepSize
  parentSuggestTimeStepSize := parentSuggest

/-- One pass of the `newtonEndStep` loop body for degree of freedom `i`:
fold the two relative-defect quotients of dof `i` into the running
maximum `d`, exactly as the two `std::max` updates in the source. -/
def endStepBody (u uOld : List PrimaryVars) (d : ℚ) (i : ℕ) : ℚ :=
  let ui := u.getD i default
  let uOldi := uOld.getD i default
  let normP := max (max (10 ^ 3) |ui.konti|) |uOldi.konti|
  let normTrans := max (max (1 / 10 ^ 3) |ui.transport|) |uOldi.transport|
  max (max d (|ui.konti - uOldi.konti| / normP))
    (|ui.transport - uOldi.transport| / normTrans)

/-- Function `newtonEndStep`: after the base-class bookkeeping (which touches
none of the fields modelled here), reset `relDefect_` to 0 and loop
over all degrees of freedom, maximising the floored relative defects of
the `konti` and `transport` components. -/
def newtonEndStep (c : LensOnePTwoCNewtonController)
    (u uOld : List PrimaryVars) : LensOnePTwoCNewtonController :=
  { c with relDefect_ := (List.range u.length).foldl (endStepBody u uOld) 0 }

/-- Function `suggestTimeStepSize`: the generic base suggestion clipped at the
configured maximum time-step size. -/
def suggestTimeStepSize (c : LensOnePTwoCNewtonController)
    (oldTimeStep : ℚ) : ℚ :=
  min c.maxTimeStepSize_ (c.parentSuggestTimeStepSize oldTimeStep)

/-- Function `newtonConverged`: true iff `relDefect_ <= tolerance_`.  The C++
method mutates nothing, so it is a pure predicate on the state. -/
def newtonConverged (c : LensOnePTwoCNewtonController) : Bool :=
  c.relDefect_ ≤ c.tolerance_

/-- The spec's relative defect of the `konti` component of dof `i`:
`|u[i].konti − uOld[i].konti| / max(1e3, |u[i].konti|, |uOld[i].konti|)`. -/
def specKontiDefect (u uOld : List PrimaryVars) (i : ℕ) : ℚ :=
  |(u.getD i default).konti - (uOld.getD i default).konti| /
    max (10 ^ 3) (max |(u.getD i default).konti| |(uOld.getD i default).konti|)

/-- The spec's relative defect of the `transport` component of dof `i`:
`|u[i].transport − uOld[i].transport| /
 max(1e-3, |u[i].transport|, |uOld[i].transport|)`. -/
def specTransportDefect (u uOld : List PrimaryVars) (i : ℕ) : ℚ :=
  |(u.getD i default).transport - (uOld.getD i default).transport| /
    max (1 / 10 ^ 3)
      (max |(u.getD i default).transport| |(uOld.getD i default).transport|)

/-- The spec's combined relative defect of dof `i`: the larger of the
`konti` and `transport` defects. -/
def specDofDefect (u uOld : List PrimaryVars) (i : ℕ) : ℚ :=
  max (specKontiDefect u uOld i) (specTransportDefect u uOld i)

end LensController

/-! ### Concrete example instances (used by the witnesses) -/

/-- A fluid state with all saturations and mole fractions 1/2. -/
def exFluidState : FluidState := ⟨fun _ => 1 / 2, fun _ _ => 1 / 2⟩

/-- Volume variables with the example fluid state and unit extrusion. -/
def exVolVars : VolumeVariables := ⟨exFluidState, 1⟩

/-- A one-sub-control-volume element context over the example volume
variables. -/
def exCtx : ElementContext := ⟨1, fun _ _ => exVolVars, fun _ _ => exVolVars, fun _ => 1, fun _ _ => 0⟩

/-- A one-phase, one-component NCP model with identity strategies and a
constant base assembly. -/
def exModel : NcpModel where
  numPhases := 1
  numComponents := 1
  phase0NcpIdx := 1
  massComputeStorage := fun s _ => s
  energyComputeStorage := fun s _ => s
  massAddPhaseStorage := fun s _ _ => s
  energyAddPhaseStorage := fun s _ _ => s
  massComputeSource := fun s _ _ _ => s
  energyComputeSource := fun s _ _ _ => s
  massComputeFlux := fun s _ _ _ => s
  baseEval := fun _ => (fun _ _ => 7, fun _ _ => 8)

/-- A controller state whose relative defect equals its tolerance. -/
def exController : LensOnePTwoCNewtonController :=
  ⟨1 / 10 ^ 7, 9, 18, 1 / 10 ^ 7, 5, fun x => x⟩

/-- A one-dof current iterate. -/
def exU : List PrimaryVars := [⟨1, 2⟩]

/-- A one-dof previous iterate. -/
def exUOld : List PrimaryVars := [⟨3, 4⟩]

/-! ### Helper lemmas -/

theorem EqVector.add_apply (a b : EqVector) (i : ℕ) : (a + b) i = a i + b i := rfl

theorem EqVector.smul_apply (c : ℚ) (a : EqVector) (i : ℕ) : (c • a) i = c * a i := rfl

theorem EqVector.zero_apply (i : ℕ) : (0 : EqVector) i = 0 := rfl

/-- The subtraction loop of `phaseNotPresentIneq_` computes `1 - Σ`. -/
theorem foldl_sub_eq_sub_sum (f : ℕ → ℚ) :
    ∀ (n : ℕ) (a : ℚ),
      (List.range n).foldl (fun a i => a - f i) a = a - ∑ i ∈ Finset.range n, f i := by
  intro n
  induction n with
  | zero => intro a; simp
  | succ n ih =>
    intro a
    rw [List.range_succ, List.foldl_append, ih, Finset.sum_range_succ]
    simp [sub_sub]

/-- An accumulation loop `s := s + h i` over `range n` adds the sum. -/
theorem foldl_add_eq_add_sum {M : Type} [AddCommMonoid M] (h : ℕ → M) :
    ∀ (n : ℕ) (acc : M),
      (List.range n).foldl (fun s i => s + h i) acc = acc + ∑ i ∈ Finset.range n, h i := by
  intro n
  induction n with
  | zero => intro acc; simp
  | succ n ih =>
    intro acc
    rw [List.range_succ, List.foldl_append, ih, Finset.sum_range_succ]
    simp [add_assoc]

/-- Pulling a `max` out of a right fold of maxima. -/
theorem foldr_max_max (g : ℕ → ℚ) :
    ∀ (l : List ℕ) (x y : ℚ),
      l.foldr (fun i r => max (g i) r) (max x y) =
        max x (l.foldr (fun i r => max (g i) r) y) := by
  intro l
  induction l with
  | nil => intro x y; rfl
  | cons a t ih =>
    intro x y
    simp only [List.foldr_cons, ih, max_left_comm]

/-- A left fold of maxima equals the corresponding right fold. -/
theorem foldl_max_eq_foldr_max (g : ℕ → ℚ) :
    ∀ (l : List ℕ) (acc : ℚ),
      l.foldl (fun d i => max d (g i)) acc = l.foldr (fun i r => max (g i) r) acc := by
  intro l
  induction l with
  | nil => intro acc; rfl
  | cons a t ih =>
    intro acc
    simp only [List.foldl_cons, List.foldr_cons, ih, max_comm acc (g a), foldr_max_max]

/-- Every list element's value is below the fold of maxima. -/
theorem le_foldr_max (g : ℕ → ℚ) :
    ∀ (l : List ℕ) (acc : ℚ) (i : ℕ), i ∈ l →
      g i ≤ l.foldr (fun i r => max (g i) r) acc := by
  intro l
  induction l with
  | nil => intro acc i hi; cases hi
  | cons a t ih =>
    intro acc i hi
    rcases List.mem_cons.mp hi with h | h
    · subst h; exact le_max_left _ _
    · exact le_trans (ih acc i h) (le_max_right _ _)

/-- The base value is below the fold of maxima. -/
theorem init_le_foldr_max (g : ℕ → ℚ) :
    ∀ (l : List ℕ) (acc : ℚ), acc ≤ l.foldr (fun i r => max (g i) r) acc := by
  intro l
  induction l with
  | nil => intro acc; exact le_refl acc
  | cons a t ih =>
    intro acc
    exact le_trans (ih acc) (le_max_right _ _)

/-- The fold of maxima is the base value or one of the list values. -/
theorem foldr_max_attained (g : ℕ → ℚ) :
    ∀ (l : List ℕ) (acc : ℚ),
      l.foldr (fun i r => max (g i) r) acc = acc ∨
        ∃ i, i ∈ l ∧ l.foldr (fun i r => max (g i) r) acc = g i := by
  intro l
  induction l with
  | nil => intro acc; exact Or.inl rfl
  | cons a t ih =>
    intro acc
    rcases max_choice (g a) (t.foldr (fun i r => max (g i) r) acc) with h | h
    · exact Or.inr ⟨a, List.mem_cons_self a t, h⟩
    · rcases ih acc with h' | ⟨i, hi, h'⟩
      · exact Or.inl (by rw [List.foldr_cons, h, h'])
      · exact Or.inr ⟨i, List.mem_cons_of_mem a hi, by rw [List.foldr_cons, h, h']⟩

/-! ### Claim theorems for the NCP local residual -/

namespace NcpLocalResidual

/-- C6: function `phaseNotPresentIneq_` returns 1 minus the sum of the mole
fractions of all components in the phase, and returns 0 when those mole
fractions sum to exactly 1. -/
theorem phaseNotPresentIneq_eq (numComponents : ℕ) (fs : FluidState) (phaseIdx : ℕ) :
    phaseNotPresentIneq_ numComponents fs phaseIdx =
        1 - ∑ i ∈ Finset.range numComponents, fs.moleFraction phaseIdx i ∧
      (∑ i ∈ Finset.range numComponents, fs.moleFraction phaseIdx i = 1 →
        phaseNotPresentIneq_ numComponents fs phaseIdx = 0) := by
  constructor
  · exact foldl_sub_eq_sub_sum (fs.moleFraction phaseIdx) numComponents 1
  · intro h
    rw [phaseNotPresentIneq_, foldl_sub_eq_sub_sum, h, sub_self]

/-- C1: function `phaseNcp_` returns the phase-present inequality of the
actual state iff the not-present inequality strictly exceeds the
present inequality at the evaluation-point state, otherwise (including
exact equality of the two evaluation-point values) the phase-not-present
inequality of the actual state. -/
theorem phaseNcp_switch (m : NcpModel) (elemCtx : ElementContext)
    (scvIdx timeIdx phaseIdx : ℕ) :
    (phaseNotPresentIneq_ m.numComponents
          (elemCtx.evalPointVolVars scvIdx timeIdx).fluidState phaseIdx >
        phasePresentIneq_ (elemCtx.evalPointVolVars scvIdx timeIdx).fluidState phaseIdx →
      phaseNcp_ m elemCtx scvIdx timeIdx phaseIdx =
        phasePresentIneq_ (elemCtx.volVars scvIdx timeIdx).fluidState phaseIdx) ∧
    (¬ (phaseNotPresentIneq_ m.numComponents
          (elemCtx.evalPointVolVars scvIdx timeIdx).fluidState phaseIdx >
        phasePresentIneq_ (elemCtx.evalPointVolVars scvIdx timeIdx).fluidState phaseIdx) →
      phaseNcp_ m elemCtx scvIdx timeIdx phaseIdx =
        phaseNotPresentIneq_ m.numComponents
          (elemCtx.volVars scvIdx timeIdx).fluidState phaseIdx) ∧
    (phaseNotPresentIneq_ m.numComponents
          (elemCtx.evalPointVolVars scvIdx timeIdx).fluidState phaseIdx =
        phasePresentIneq_ (elemCtx.evalPointVolVars scvIdx timeIdx).fluidState phaseIdx →
      phaseNcp_ m elemCtx scvIdx timeIdx phaseIdx =
        phaseNotPresentIneq_ m.numComponents
          (elemCtx.volVars scvIdx timeIdx).fluidState phaseIdx) := by
  refine ⟨fun h => ?_, fun h => ?_, fun h => ?_⟩
  · rw [phaseNcp_, if_pos h]
  · rw [phaseNcp_, if_neg h]
  · rw [phaseNcp_, if_neg (by rw [h]; exact lt_irrefl _)]

/-- C7: function `computeSource` is the problem source plus the mass source
contribution alone; it does not depend on the energy-source strategy,
so the energy source is never added. -/
theorem computeSource_no_energy (m : NcpModel) (elemCtx : ElementContext)
    (scvIdx timeIdx : ℕ) (f : EqVector → ElementContext → ℕ → ℕ → EqVector) :
    computeSource m elemCtx scvIdx timeIdx =
        elemCtx.problemSource scvIdx timeIdx +
          m.massComputeSource (0 : EqVector) elemCtx scvIdx timeIdx ∧
      computeSource { m with energyComputeSource := f } elemCtx scvIdx timeIdx =
        computeSource m elemCtx scvIdx timeIdx :=
  ⟨rfl, rfl⟩

end NcpLocalResidual

namespace NcpLocalResidual

/-- Cells outside the phase-NCP range of `scvIdx` are untouched by the
inner write loop. -/
theorem writePhases_unchanged (m : NcpModel) (elemCtx : ElementContext) (scvIdx : ℕ) :
    ∀ (n : ℕ) (r : ℕ → EqVector) (i j : ℕ),
      i ≠ scvIdx ∨ j < m.phase0NcpIdx ∨ m.phase0NcpIdx + n ≤ j →
      writePhases m elemCtx scvIdx n r i j = r i j := by
  intro n
  induction n with
  | zero => intro r i j _; rfl
  | succ n ih =>
    intro r i j h
    have hcell : ¬ (i = scvIdx ∧ j = m.phase0NcpIdx + n) := by
      rintro ⟨hi, hj⟩
      rcases h with h | h | h
      · exact h hi
      · omega
      · omega
    rw [writePhases, updateCell, if_neg hcell]
    exact ih r i j (by omega)

/-- The inner write loop stores the phase-NCP value at each written
cell. -/
theorem writePhases_written (m : NcpModel) (elemCtx : ElementContext) (scvIdx : ℕ) :
    ∀ (n : ℕ) (r : ℕ → EqVector) (p : ℕ), p < n →
      writePhases m elemCtx scvIdx n r scvIdx (m.phase0NcpIdx + p) =
        phaseNcp_ m elemCtx scvIdx 0 p := by
  intro n
  induction n with
  | zero => intro r p hp; omega
  | succ n ih =>
    intro r p hp
    by_cases hpn : p = n
    · subst hpn
      rw [writePhases, updateCell, if_pos ⟨rfl, rfl⟩]
    · have hj : m.phase0NcpIdx + p ≠ m.phase0NcpIdx + n := by omega
      rw [writePhases, updateCell, if_neg (by rintro ⟨_, hj'⟩; exact hj hj')]
      exact ih r p (by omega)

/-- Cells outside the written sub-control volumes or outside the NCP
equation range are untouched by the outer write loop. -/
theorem writeScvs_unchanged (m : NcpModel) (elemCtx : ElementContext) :
    ∀ (n : ℕ) (r : ℕ → EqVector) (i j : ℕ),
      n ≤ i ∨ j < m.phase0NcpIdx ∨ m.phase0NcpIdx + m.numPhases ≤ j →
      writeScvs m elemCtx n r i j = r i j := by
  intro n
  induction n with
  | zero => intro r i j _; rfl
  | succ n ih =>
    intro r i j h
    rw [writeScvs, writePhases_unchanged m elemCtx n m.numPhases _ i j (by omega)]
    exact ih r i j (by omega)

/-- The outer write loop stores the phase-NCP value at every
(sub-control volume, phase) cell. -/
theorem writeScvs_written (m : NcpModel) (elemCtx : ElementContext) :
    ∀ (n : ℕ) (r : ℕ → EqVector) (i p : ℕ), i < n → p < m.numPhases →
      writeScvs m elemCtx n r i (m.phase0NcpIdx + p) =
        phaseNcp_ m elemCtx i 0 p := by
  intro n
  induction n with
  | zero => intro r i p hi _; omega
  | succ n ih =>
    intro r i p hi hp
    by_cases hin : i = n
    · subst hin
      rw [writeScvs]
      exact writePhases_written m elemCtx i m.numPhases _ p hp
    · rw [writeScvs,
        writePhases_unchanged m elemCtx n m.numPhases _ i _ (Or.inl hin)]
      exact ih r i p (by omega) hp

/-- C2: after `eval`, every NCP row holds the phase-NCP value; every
residual entry outside the NCP rows, and the whole storage term, equal
the base assembly's output. -/
theorem eval_overwrites_ncp_rows (m : NcpModel) (elemCtx : ElementContext) :
    (∀ scvIdx phaseIdx, scvIdx < elemCtx.numScv → phaseIdx < m.numPhases →
      (eval m elemCtx).1 scvIdx (m.phase0NcpIdx + phaseIdx) =
        phaseNcp_ m elemCtx scvIdx 0 phaseIdx) ∧
    (∀ scvIdx eqIdx,
      elemCtx.numScv ≤ scvIdx ∨ eqIdx < m.phase0NcpIdx ∨
        m.phase0NcpIdx + m.numPhases ≤ eqIdx →
      (eval m elemCtx).1 scvIdx eqIdx = (m.baseEval elemCtx).1 scvIdx eqIdx) ∧
    (eval m elemCtx).2 = (m.baseEval elemCtx).2 :=
  ⟨fun scvIdx phaseIdx hs hp =>
      writeScvs_written m elemCtx elemCtx.numScv (m.baseEval elemCtx).1 scvIdx phaseIdx hs hp,
    fun scvIdx eqIdx h =>
      writeScvs_unchanged m elemCtx elemCtx.numScv (m.baseEval elemCtx).1 scvIdx eqIdx h,
    rfl⟩

/-- C10: function `addPhaseStorage` accumulates the scaled per-sub-control-
volume phase storage onto the prior contents of its vector argument,
while `computeStorage` and `computeFlux` ignore the prior contents of
theirs. -/
theorem addPhaseStorage_accumulates (m : NcpModel) (elemCtx : ElementContext)
    (phaseIdx scvIdx timeIdx scvfIdx : ℕ) (storage flux : EqVector) :
    addPhaseStorage m storage elemCtx phaseIdx =
        storage + ∑ i ∈ Finset.range elemCtx.numScv, phaseStorageTerm m elemCtx phaseIdx i ∧
      computeStorage m storage elemCtx scvIdx timeIdx =
        computeStorage m (0 : EqVector) elemCtx scvIdx timeIdx ∧
      computeFlux m flux elemCtx scvfIdx timeIdx =
        computeFlux m (0 : EqVector) elemCtx scvfIdx timeIdx :=
  ⟨foldl_add_eq_add_sum (phaseStorageTerm m elemCtx phaseIdx) elemCtx.numScv storage,
    rfl, rfl⟩

end NcpLocalResidual

/-! ### Claim theorems for the Newton controller -/

namespace LensController

/-- C4: function `newtonConverged` is true iff `relDefect_` is at most the
configured tolerance; equality of defect and tolerance counts as
converged, and as a pure predicate it returns the same answer on the
unchanged state. -/
theorem newtonConverged_iff (c : LensOnePTwoCNewtonController) :
    (newtonConverged c = true ↔ c.relDefect_ ≤ c.tolerance_) ∧
      (c.relDefect_ = c.tolerance_ → newtonConverged c = true) := by
  constructor
  · exact ⟨of_decide_eq_true, fun h => decide_eq_true h⟩
  · intro h
    exact decide_eq_true (le_of_eq h)

/-- C5: function `suggestTimeStepSize` is the minimum of the configured
maximum time-step size and the generic base suggestion: it never
exceeds the bound and coincides with the base suggestion whenever that
is at most the bound. -/
theorem suggestTimeStepSize_min (c : LensOnePTwoCNewtonController) (oldTimeStep : ℚ) :
    suggestTimeStepSize c oldTimeStep =
        min c.maxTimeStepSize_ (c.parentSuggestTimeStepSize oldTimeStep) ∧
      suggestTimeStepSize c oldTimeStep ≤ c.maxTimeStepSize_ ∧
      (c.parentSuggestTimeStepSize oldTimeStep ≤ c.maxTimeStepSize_ →
        suggestTimeStepSize c oldTimeStep = c.parentSuggestTimeStepSize oldTimeStep) :=
  ⟨rfl, min_le_left _ _, fun h => min_eq_right h⟩

/-- One loop body pass folds the running maximum with the combined dof
defect. -/
theorem endStepBody_eq (u uOld : List PrimaryVars) (d : ℚ) (i : ℕ) :
    endStepBody u uOld d i = max d (specDofDefect u uOld i) := by
  simp only [endStepBody, specDofDefect, specKontiDefect, specTransportDefect, max_assoc]

/-- The field `relDefect_` produced by `newtonEndStep` is the fold of maxima
of the per-dof combined defects over all degrees of freedom. -/
theorem newtonEndStep_relDefect (c : LensOnePTwoCNewtonController)
    (u uOld : List PrimaryVars) :
    (newtonEndStep c u uOld).relDefect_ =
      (List.range u.length).foldr
        (fun i r => max (specDofDefect u uOld i) r) 0 := by
  show (List.range u.length).foldl (endStepBody u uOld) 0 = _
  have hbody : endStepBody u uOld = fun d i => max d (specDofDefect u uOld i) :=
    funext fun d => funext fun i => endStepBody_eq u uOld d i
  rw [hbody, foldl_max_eq_foldr_max]

/-- Function `newtonEndStep` leaves every modelled field except `relDefect_`
unchanged. -/
theorem newtonEndStep_frame (c : LensOnePTwoCNewtonController)
    (u uOld : List PrimaryVars) :
    (newtonEndStep c u uOld).tolerance_ = c.tolerance_ ∧
      (newtonEndStep c u uOld).maxTimeStepSize_ = c.maxTimeStepSize_ :=
  ⟨rfl, rfl⟩

/-- C3: after `newtonEndStep`, `relDefect_` is the maximum over all
degrees of freedom of the floored relative `konti` and `transport`
defects: it is bounded below by every per-dof defect, is attained at
some dof (or is 0), and is derived from `u` and `uOld` alone,
independent of the controller state before the call. -/
theorem newtonEndStep_relDefect_fresh_max (c : LensOnePTwoCNewtonController)
    (u uOld : List PrimaryVars) :
    (∀ c', (newtonEndStep c' u uOld).relDefect_ = (newtonEndStep c u uOld).relDefect_) ∧
      (newtonEndStep c u uOld).relDefect_ =
        ((List.range u.length).map (specDofDefect u uOld)).foldr max 0 ∧
      (∀ i, i < u.length → specDofDefect u uOld i ≤ (newtonEndStep c u uOld).relDefect_) ∧
      ((newtonEndStep c u uOld).relDefect_ = 0 ∨
        ∃ i, i < u.length ∧ (newtonEndStep c u uOld).relDefect_ = specDofDefect u uOld i) := by
  refine ⟨fun c' => by rw [newtonEndStep_relDefect, newtonEndStep_relDefect], ?_, ?_, ?_⟩
  · rw [newtonEndStep_relDefect, List.foldr_map]
  · intro i hi
    rw [newtonEndStep_relDefect]
    exact le_foldr_max (specDofDefect u uOld) _ 0 i (List.mem_range.mpr hi)
  · rw [newtonEndStep_relDefect]
    rcases foldr_max_attained (specDofDefect u uOld) (List.range u.length) 0 with h | ⟨i, hi, h⟩
    · exact Or.inl h
    · exact Or.inr ⟨i, List.mem_range.mp hi, h⟩

/-- C8: the field `relDefect_` is nonnegative after construction (the 1e100
sentinel) and after every `newtonEndStep` call. -/
theorem relDefect_nonneg (maxTimeStepSize : ℚ) (parentSuggest : ℚ → ℚ)
    (c : LensOnePTwoCNewtonController) (u uOld : List PrimaryVars) :
    0 ≤ (mkController maxTimeStepSize parentSuggest).relDefect_ ∧
      0 ≤ (newtonEndStep c u uOld).relDefect_ := by
  constructor
  · show (0 : ℚ) ≤ 10 ^ 100
    positivity
  · rw [newtonEndStep_relDefect]
    exact init_le_foldr_max (specDofDefect u uOld) _ 0

/-- C9: function `newtonEndStep` with an empty solution, or with identical
iterates, sets `relDefect_` to 0, so `newtonConverged` then holds for
any nonnegative tolerance. -/
theorem newtonEndStep_trivial_converged (c : LensOnePTwoCNewtonController)
    (u uOld : List PrimaryVars) (h : 0 ≤ c.tolerance_) :
    (newtonEndStep c [] uOld).relDefect_ = 0 ∧
      newtonConverged (newtonEndStep c [] uOld) = true ∧
      (newtonEndStep c u u).relDefect_ = 0 ∧
      newtonConverged (newtonEndStep c u u) = true := by
  have hnil : (newtonEndStep c [] uOld).relDefect_ = 0 := by
    rw [newtonEndStep_relDefect]
    rfl
  have hdof : ∀ i, specDofDefect u u i = 0 := by
    intro i
    simp [specDofDefect, specKontiDefect, specTransportDefect]
  have hself : (newtonEndStep c u u).relDefect_ = 0 := by
    rw [newtonEndStep_relDefect]
    rcases foldr_max_attained (specDofDefect u u) (List.range u.length) 0 with h' | ⟨i, _, h'⟩
    · exact h'
    · rw [h', hdof i]
  refine ⟨hnil, decide_eq_true ?_, hself, decide_eq_true ?_⟩
  · rw [hnil]
    exact h
  · rw [hself]
    exact h

end LensController

/-! ### Witnesses -/

namespace NcpLocalResidual

/-- Witness for the phase-NCP switch at an exactly balanced evaluation
point: the phase-not-present branch is returned. -/
theorem phaseNcp_switch_witness :
    phaseNotPresentIneq_ exModel.numComponents
        (exCtx.evalPointVolVars 0 0).fluidState 0 =
      phasePresentIneq_ (exCtx.evalPointVolVars 0 0).fluidState 0 ∧
      phaseNcp_ exModel exCtx 0 0 0 =
        phaseNotPresentIneq_ exModel.numComponents (exCtx.volVars 0 0).fluidState 0 :=
  ⟨by show (1 : ℚ) - 1 / 2 = 1 / 2; norm_num,
    (phaseNcp_switch exModel exCtx 0 0 0).2.2 (by show (1 : ℚ) - 1 / 2 = 1 / 2; norm_num)⟩

/-- Witness for the `eval` overwrite: the NCP row of the single
sub-control volume holds the phase-NCP value and row 0 keeps the base
assembly value. -/
theorem eval_overwrites_ncp_rows_witness :
    (0 < exCtx.numScv ∧ 0 < exModel.numPhases) ∧
      (eval exModel exCtx).1 0 (exModel.phase0NcpIdx + 0) = phaseNcp_ exModel exCtx 0 0 0 ∧
      (eval exModel exCtx).1 0 0 = (exModel.baseEval exCtx).1 0 0 :=
  ⟨⟨by decide, by decide⟩,
    (eval_overwrites_ncp_rows exModel exCtx).1 0 0 (by decide) (by decide),
    (eval_overwrites_ncp_rows exModel exCtx).2.1 0 0 (Or.inr (Or.inl (by decide)))⟩

/-- Witness for `phaseNotPresentIneq_`: two mole fractions of 1/2 sum
to 1, so the inequality value is 0. -/
theorem phaseNotPresentIneq_eq_witness :
    (∑ i ∈ Finset.range 2, exFluidState.moleFraction 0 i = 1) ∧
      phaseNotPresentIneq_ 2 exFluidState 0 = 0 :=
  ⟨by norm_num [Finset.sum_range_succ, exFluidState],
    (phaseNotPresentIneq_eq 2 exFluidState 0).2
      (by norm_num [Finset.sum_range_succ, exFluidState])⟩

end NcpLocalResidual

namespace LensController

/-- Witness for `newtonConverged` at exact equality of defect and
tolerance. -/
theorem newtonConverged_iff_witness :
    exController.relDefect_ = exController.tolerance_ ∧
      newtonConverged exController = true :=
  ⟨rfl, (newtonConverged_iff exController).2 rfl⟩

/-- Witness for `suggestTimeStepSize` when the base suggestion is below
the bound. -/
theorem suggestTimeStepSize_min_witness :
    exController.parentSuggestTimeStepSize 3 ≤ exController.maxTimeStepSize_ ∧
      suggestTimeStepSize exController 3 = exController.parentSuggestTimeStepSize 3 :=
  ⟨by show (3 : ℚ) ≤ 5; norm_num,
    (suggestTimeStepSize_min exController 3).2.2 (by show (3 : ℚ) ≤ 5; norm_num)⟩

/-- Witness for the `newtonEndStep` relative-defect maximum on a
concrete one-dof solution pair. -/
theorem newtonEndStep_relDefect_fresh_max_witness :
    0 < exU.length ∧
      specDofDefect exU exUOld 0 ≤ (newtonEndStep exController exU exUOld).relDefect_ :=
  ⟨by decide,
    (newtonEndStep_relDefect_fresh_max exController exU exUOld).2.2.1 0 (by decide)⟩

/-- Witness for trivial convergence with the nonnegative default
tolerance. -/
theorem newtonEndStep_trivial_converged_witness :
    0 ≤ exController.tolerance_ ∧
      ((newtonEndStep exController [] exUOld).relDefect_ = 0 ∧
        newtonConverged (newtonEndStep exController [] exUOld) = true ∧
        (newtonEndStep exController exU exU).relDefect_ = 0 ∧
        newtonConverged (newtonEndStep exController exU exU) = true) :=
  ⟨by show (0 : ℚ) ≤ 1 / 10 ^ 7; positivity,
    newtonEndStep_trivial_converged exController exU exUOld
      (by show (0 : ℚ) ≤ 1 / 10 ^ 7; positivity)⟩

end LensController
